import Mathlib

/-!
Verification of the core pipeline logic of `app.py` (a YouTube search /
trending / source-trace aggregation tool).

The Python source is shallowly embedded: pure helpers become Lean
functions; the network boundary (HTTP responses of the YouTube API and of
the web-search API) is passed in as explicit data; the single piece of
mutable session state used by the core (`st.session_state["yt_key_idx"]`)
is threaded through explicitly.  Text is modelled as `String` and all
text operations are carried out on the underlying `List Char`
(code-point lists), matching Python's code-point string semantics.
Floating-point arithmetic of the source is modelled over `ℝ` (for the
engagement score, which mixes an exponent 0.85) and over `ℚ` (for the
external-result ranking scores, which only add and multiply decimal
constants).
-/

namespace App

/-- Decidable equality for `Except`, used to evaluate concrete runs. -/
instance {ε α : Type} [DecidableEq ε] [DecidableEq α] : DecidableEq (Except ε α)
  | .error a, .error b =>
      decidable_of_iff (a = b) ⟨fun h => congrArg _ h, fun h => by cases h; rfl⟩
  | .error _, .ok _ => isFalse (fun h => by cases h)
  | .ok _, .error _ => isFalse (fun h => by cases h)
  | .ok a, .ok b =>
      decidable_of_iff (a = b) ⟨fun h => congrArg _ h, fun h => by cases h; rfl⟩

/-- Python `str.lower()` restricted to the ASCII range, as a code-point list.
(The titles and keywords of the source are ASCII and Hangul; Hangul has no
case, so ASCII lowering is exact here.) -/
def lower (s : String) : List Char := s.data.map Char.toLower

/-- Python's substring test `needle in hay` on code-point lists. -/
def containsSub (hay needle : List Char) : Bool :=
  (List.range (hay.length + 1)).any (fun i => needle.isPrefixOf (hay.drop i))

/-- `needle in hay` for a `String` needle against an already-lowered hay. -/
def containsStr (hay : List Char) (needle : String) : Bool :=
  containsSub hay needle.data

-- ======================================================================
-- § Key Rotation HTTP Client  (`yt_get`, app.py lines 72–108)
-- ======================================================================

/-- Outcome of one HTTP attempt with one concrete API key.  `quota` is a 403
response whose JSON body carries reason `quotaExceeded` (the source then
warns and moves on without recording an error); `err` is any other failure
(non-quota HTTP error, transport error, malformed body), whose exception
object the source records in `last_err`.  Payloads are abstract numerals
identifying the response / error object. -/
inductive Outcome where
  | ok (resp : Nat)
  | quota (resp : Nat)
  | err (e : Nat)
deriving DecidableEq, Repr

/-- What `yt_get` can raise: the missing-key `RuntimeError`, the re-raised
`last_err`, or the final `RuntimeError("YouTube API 요청 실패(원인 불명)")`
raised when the loop ends with `last_err` still `None`. -/
inductive YtErr where
  | configError
  | raised (e : Nat)
  | unknownFailure
deriving DecidableEq, Repr

/-- The retry loop of `yt_get`: `offs` enumerates the remaining values of
`offset`, `last` is `last_err`, `sess` the incoming session key index
(returned unchanged unless a key succeeds).  Each attempt uses index
`(start_idx + offset) % len(keys)`. -/
def ytRotate (outcome : Nat → Outcome) (n startIdx sess : Nat) :
    List Nat → Option Nat → (Except YtErr Nat) × Nat
  | [], none => (.error .unknownFailure, sess)
  | [], some e => (.error (.raised e), sess)
  | off :: rest, last =>
      match outcome ((startIdx + off) % n) with
      | .ok resp => (.ok resp, (startIdx + off) % n)
      | .quota _ => ytRotate outcome n startIdx sess rest last
      | .err e => ytRotate outcome n startIdx sess rest (some e)

/-- `yt_get` (app.py 72–108).  `pool` is `YOUTUBE_API_KEYS`, `sess` the
session's `yt_key_idx` (also the `start_idx` the loop reads), `outcome`
gives the result of attempting each key index.  Returns the response (or
raised error) together with the session key index after the call. -/
def yt_get (outcome : Nat → Outcome) (pool : List String) (sess : Nat) :
    (Except YtErr Nat) × Nat :=
  if pool.isEmpty then (.error .configError, sess)
  else ytRotate outcome pool.length sess sess (List.range pool.length) none

/-- The order in which `yt_get` tries key indices: offsets `0..n-1` from the
last-known-good index `s`, wrapping modulo the pool size. -/
def rotationOrder (s n : Nat) : List Nat :=
  (List.range n).map (fun o => (s + o) % n)

/-- `last_err` after scanning the offsets in `offs`: the payload of the last
non-quota failure, if any (quota failures skip the `raise_for_status` that
would record an error). -/
def lastErrAcc (outcome : Nat → Outcome) (n s : Nat) (offs : List Nat)
    (last : Option Nat) : Option Nat :=
  offs.foldl
    (fun acc o =>
      match outcome ((s + o) % n) with
      | .err e => some e
      | _ => acc)
    last

/-- The payload of the last failure of any kind (quota included) along
`offs` — the "last encountered error" in the claim's literal sense. -/
def lastAnyErr (outcome : Nat → Outcome) (n s : Nat) (offs : List Nat)
    (last : Option Nat) : Option Nat :=
  offs.foldl
    (fun acc o =>
      match outcome ((s + o) % n) with
      | .err e => some e
      | .quota e => some e
      | .ok _ => acc)
    last

/-- Did the attempt succeed? -/
def isOk : Outcome → Bool
  | .ok _ => true
  | _ => false

/-- The error `yt_get` raises for a given final `last_err`. -/
def errOf : Option Nat → YtErr
  | none => .unknownFailure
  | some e => .raised e

theorem ytRotate_allFail (outcome : Nat → Outcome) (n s sess : Nat) :
    ∀ (offs : List Nat) (last : Option Nat),
      (∀ o ∈ offs, isOk (outcome ((s + o) % n)) = false) →
      ytRotate outcome n s sess offs last =
        (.error (errOf (lastErrAcc outcome n s offs last)), sess) := by
  intro offs
  induction offs with
  | nil =>
      intro last _
      cases last <;> rfl
  | cons o rest ih =>
      intro last hfail
      have ho := hfail o (by simp)
      have hrest : ∀ o' ∈ rest, isOk (outcome ((s + o') % n)) = false :=
        fun o' ho' => hfail o' (by simp [ho'])
      rcases hc : outcome ((s + o) % n) with resp | resp | e
      · rw [hc] at ho; simp [isOk] at ho
      · simp only [ytRotate, hc, lastErrAcc, List.foldl_cons]
        exact ih last hrest
      · simp only [ytRotate, hc, lastErrAcc, List.foldl_cons]
        exact ih (some e) hrest

theorem ytRotate_firstOk (outcome : Nat → Outcome) (n s sess : Nat)
    (offs₁ offs₂ : List Nat) (o : Nat) (resp : Nat)
    (hfail : ∀ o' ∈ offs₁, isOk (outcome ((s + o') % n)) = false)
    (hok : outcome ((s + o) % n) = .ok resp) :
    ∀ last, ytRotate outcome n s sess (offs₁ ++ o :: offs₂) last =
      (.ok resp, (s + o) % n) := by
  induction offs₁ with
  | nil =>
      intro last
      simp only [List.nil_append, ytRotate, hok]
  | cons o' rest ih =>
      intro last
      have ho' := hfail o' (by simp)
      have hrest : ∀ x ∈ rest, isOk (outcome ((s + x) % n)) = false :=
        fun x hx => hfail x (by simp [hx])
      rcases hc : outcome ((s + o') % n) with r | r | e
      · rw [hc] at ho'; simp [isOk] at ho'
      · simp only [List.cons_append, ytRotate, hc]
        exact ih hrest last
      · simp only [List.cons_append, ytRotate, hc]
        exact ih hrest (some e)

theorem rotationOrder_nodup (s n : Nat) : (rotationOrder s n).Nodup := by
  apply List.Nodup.map_on
  · intro a ha b hb hab
    simp only [List.mem_range] at ha hb
    have h2 : a ≡ b [MOD n] :=
      Nat.ModEq.add_left_cancel (Nat.ModEq.refl s) hab
    calc a = a % n := (Nat.mod_eq_of_lt ha).symm
      _ = b % n := h2
      _ = b := Nat.mod_eq_of_lt hb
  · exact List.nodup_range n

theorem range_split (k n : Nat) (h : k < n) :
    List.range n = List.range k ++ k :: List.range' (k + 1) (n - k - 1) := by
  have h2 : List.range' k (n - k) = k :: List.range' (k + 1) (n - k - 1) := by
    rw [show n - k = (n - k - 1) + 1 by omega]
    rfl
  have h1 : List.range n = List.range' 0 k ++ List.range' k (n - k) := by
    rw [List.range_eq_range', show n = (n - k) + k by omega]
    have h3 := (List.range'_append_1 0 k (n - k)).symm
    simpa [Nat.add_sub_cancel] using h3
  rw [h1, h2, List.range_eq_range']

/-- Claim C1 (amended): with an empty key pool the call fails immediately
with the configuration error; with a non-empty pool the rotation order
starts at the session index, wraps once, and never repeats a key; the
first succeeding key's response is returned and its index recorded in the
session; and when every key fails the last recorded (non-quota) error is
propagated — a run in which every key failed via the quota-exceeded path
raises the generic unknown-cause error instead — leaving the session
index unchanged. -/
theorem yt_get_key_rotation :
    (∀ outcome sess, yt_get outcome ([] : List String) sess = (.error .configError, sess)) ∧
    (∀ (outcome : Nat → Outcome) (pool : List String) (sess : Nat), pool ≠ [] →
      ((rotationOrder sess pool.length).length = pool.length ∧
        (rotationOrder sess pool.length).Nodup ∧
        (rotationOrder sess pool.length).head? = some (sess % pool.length)) ∧
      (∀ k resp, k < pool.length → outcome ((sess + k) % pool.length) = .ok resp →
        (∀ k', k' < k → isOk (outcome ((sess + k') % pool.length)) = false) →
        yt_get outcome pool sess = (.ok resp, (sess + k) % pool.length)) ∧
      ((∀ k, k < pool.length → isOk (outcome ((sess + k) % pool.length)) = false) →
        yt_get outcome pool sess =
          (.error (errOf (lastErrAcc outcome pool.length sess
            (List.range pool.length) none)), sess))) := by
  constructor
  · intro outcome sess
    rfl
  · intro outcome pool sess hpool
    have hn : 0 < pool.length := List.length_pos.mpr hpool
    have hne : ¬ pool.isEmpty := by
      simp [List.isEmpty_iff, hpool]
    refine ⟨⟨by simp [rotationOrder], rotationOrder_nodup sess pool.length, ?_⟩, ?_, ?_⟩
    · rcases hlen : pool.length with _ | m
      · omega
      · simp [rotationOrder, List.range_succ_eq_map]
    · intro k resp hk hok hfail
      unfold yt_get
      rw [if_neg hne]
      rw [range_split k pool.length hk]
      rw [ytRotate_firstOk outcome pool.length sess sess (List.range k)
            (List.range' (k + 1) (pool.length - k - 1)) k resp
            (fun o' ho' => hfail o' (List.mem_range.mp ho')) hok none]
    · intro hfail
      unfold yt_get
      rw [if_neg hne]
      rw [ytRotate_allFail outcome pool.length sess sess (List.range pool.length) none
            (fun o ho => hfail o (List.mem_range.mp ho))]

/-- Outcome table for the witness below: key index 2 is quota-exhausted,
key index 0 fails with a non-quota error, key index 1 succeeds. -/
def outcomeW : Nat → Outcome
  | 0 => .err 2
  | 1 => .ok 9
  | _ => .quota 1

/-- Witness for C1: a pool of three keys with session index 2; the rotation
tries indices 2 (quota), 0 (error), then 1, which succeeds with response 9
and becomes the recorded session index. -/
theorem yt_get_key_rotation_witness :
    yt_get outcomeW [" a", " b", " c"] 2 = (.ok 9, 1) := by
  have h := (yt_get_key_rotation.2 outcomeW [" a", " b", " c"] 2 (by decide)).2.1
    2 9 (by decide) (by decide) (by decide)
  simpa using h

/-- Counterexample for C1 as stated: with a single key whose only failure is
the quota-exceeded 403 (error object 7), every credential fails and the
last encountered error is that 403, yet `yt_get` raises the generic
unknown-cause `RuntimeError`, not the encountered error. -/
theorem yt_get_last_error_counterexample :
    yt_get (fun _ => Outcome.quota 7) [" k"] 0 = (.error .unknownFailure, 0) ∧
    lastAnyErr (fun _ => Outcome.quota 7) 1 0 (List.range 1) none = some 7 ∧
    ((.error (YtErr.raised 7), 0) : (Except YtErr Nat) × Nat) ≠
      ((.error .unknownFailure, 0) : (Except YtErr Nat) × Nat) := by
  refine ⟨by decide, by decide, by decide⟩

/-- Claim C10: whenever `yt_get` raises (any error at all), the session's
`yt_key_idx` is left at its pre-call value; the index is written only on
the success path. -/
theorem yt_get_error_preserves_index
    (outcome : Nat → Outcome) (pool : List String) (sess : Nat) (e : YtErr)
    (h : (yt_get outcome pool sess).1 = .error e) :
    (yt_get outcome pool sess).2 = sess := by
  have key : ∀ (offs : List Nat) (last : Option Nat) (e' : YtErr),
      (ytRotate outcome pool.length sess sess offs last).1 = .error e' →
      (ytRotate outcome pool.length sess sess offs last).2 = sess := by
    intro offs
    induction offs with
    | nil =>
        intro last e' _
        cases last <;> rfl
    | cons o rest ih =>
        intro last e' h'
        rcases hc : outcome ((sess + o) % pool.length) with r | r | er
        · rw [ytRotate, hc] at h'
          cases h'
        · rw [ytRotate, hc] at h' ⊢
          exact ih last e' h'
        · rw [ytRotate, hc] at h' ⊢
          exact ih (some er) e' h'
  unfold yt_get at h ⊢
  by_cases hne : pool.isEmpty
  · rw [if_pos hne]
  · rw [if_neg hne] at h ⊢
    exact key (List.range pool.length) none e h

/-- Witness for C10: one key that fails with a non-quota error; the call
raises that error and the session index stays at its pre-call value 3. -/
theorem yt_get_error_preserves_index_witness :
    (yt_get (fun _ => Outcome.err 5) [" k"] 3).2 = 3 :=
  yt_get_error_preserves_index (fun _ => Outcome.err 5) [" k"] 3
    (.raised 5) (by decide)

-- ======================================================================
-- § Scoring utilities: ISO-8601 duration parsing (app.py 118–123)
-- ======================================================================

/-- Numeric value of a run of ASCII digits. -/
def digitsVal (ds : List Char) : Nat :=
  ds.foldl (fun a c => a * 10 + (c.toNat - '0'.toNat)) 0

/-- One optional regex group `(\d+)X`: a non-empty digit run followed by the
letter `letter`; on a match returns the value and the remaining input. -/
def grabGroup (letter : Char) (cs : List Char) : Option (Nat × List Char) :=
  let ds := cs.takeWhile Char.isDigit
  let rest := cs.dropWhile Char.isDigit
  if ds.isEmpty then none
  else
    match rest with
    | c :: rest2 => if c = letter then some (digitsVal ds, rest2) else none
    | [] => none

/-- `parse_iso8601_duration` (app.py 118–123): matches
`^PT(?:(\d+)H)?(?:(\d+)M)?(?:(\d+)S)?$` and returns total seconds;
empty or unparsable input yields 0.  The three optional groups are
deterministic because each is anchored by its distinct suffix letter. -/
def parse_iso8601_duration (s : String) : Nat :=
  match s.data with
  | 'P' :: 'T' :: cs =>
      let hc1 := match grabGroup 'H' cs with
        | some (v, r) => (v, r)
        | none => (0, cs)
      let mc2 := match grabGroup 'M' hc1.2 with
        | some (v, r) => (v, r)
        | none => (0, hc1.2)
      let sc3 := match grabGroup 'S' mc2.2 with
        | some (v, r) => (v, r)
        | none => (0, mc2.2)
      if sc3.2.isEmpty then hc1.1 * 3600 + mc2.1 * 60 + sc3.1 else 0
  | _ => 0

-- ======================================================================
-- § Age keyword map (app.py 181–233)
-- ======================================================================

/-- `GE_KEYWORDS` (app.py 181–188). -/
def GE_KEYWORDS (n : Nat) : List String :=
  match n with
  | 10 => ["minecraft", "roblox", "포켓몬", "애니", "게임", "마인크래프트", "틴",
           "학생", "공부법", "고등학교", "중학교", "초등학교", "로블록스"]
  | 20 => ["대학생", "브이로그", "여행", "취업", "자취", "카페", "패션", "아이돌",
           "kpop", "연예"]
  | 30 => ["직장인", "육아", "재테크", "부동산", "인테리어", "홈카페", "저축",
           "요리", "헬스"]
  | 40 => ["건강", "퇴직", "가족", "골프", "등산", "주택", "가전", "보험", "클래식"]
  | 50 => ["건강검진", "관절", "은퇴", "취미", "가드닝", "캠핑", "요리", "여행"]
  | 60 => ["시니어", "건강", "복지", "정원", "텃밭", "낚시", "국악", "교양", "역사",
           "트로트", "연금", "노후"]
  | _ => []

/-- The keys of the `AGE_KEYWORDS` dict, in insertion order. -/
def AGE_TAGS : List String := ["10대", "20대", "30대", "40대", "50대", "60대"]

/-- `AGE_KEYWORDS` (app.py 189–196), as a total lookup (missing tag ↦ `[]`,
mirroring `AGE_KEYWORDS.get(tag, [])` semantics; key-membership tests use
`AGE_TAGS`). -/
def AGE_KEYWORDS (tag : String) : List String :=
  if tag = "10대" then GE_KEYWORDS 10
  else if tag = "20대" then GE_KEYWORDS 20
  else if tag = "30대" then GE_KEYWORDS 30
  else if tag = "40대" then GE_KEYWORDS 40
  else if tag = "50대" then GE_KEYWORDS 50
  else if tag = "60대" then GE_KEYWORDS 60
  else []

/-- `GENERIC_GAME_NEG` (app.py 198–202). -/
def GENERIC_GAME_NEG : List String :=
  ["game", "게임", "겜", "마인크래프트", "minecraft", "roblox", "로블록스", "포켓몬",
   "fortnite", "genshin", "원신", "lol", "리그 오브 레전드", "valorant", "발로란트",
   "배그", "pubg", "steam", "스팀", "xbox", "ps5", "플스", "닌텐도", "nintendo",
   "switch", "스위치"]

/-- `AGE_NEG_KEYWORDS[tag]` (app.py 204–215): the lower-cased keywords of
every *other* age bracket.  The source stores `sorted(set(...))`; order and
multiplicity are irrelevant here because the list is only consumed through
`any(neg in t for neg in ...)`, so the plain concatenation is used. -/
def AGE_NEG_KEYWORDS (tag : String) : List (List Char) :=
  (((AGE_TAGS.filter (fun t => t ≠ tag)).map AGE_KEYWORDS).flatten).map lower

/-- `age_relevance_score` (app.py 217–224): how many of the bracket's
keywords occur (case-insensitively) in the title. -/
def age_relevance_score (title : String) (age_tag : String) : Nat :=
  if title = "" ∨ ¬ (age_tag ∈ AGE_TAGS) then 0
  else (AGE_KEYWORDS age_tag).countP (fun kw => containsSub (lower title) (lower kw))

/-- `age_negative_hit` (app.py 226–233): true when the title contains a
keyword of another bracket, or — for every bracket except "10대" — a
generic gaming term. -/
def age_negative_hit (title : String) (age_tag : String) : Bool :=
  if title = "" ∨ ¬ (age_tag ∈ AGE_TAGS) then false
  else
    let t := lower title
    if (AGE_NEG_KEYWORDS age_tag).any (fun neg => containsSub t neg) then true
    else if age_tag ≠ "10대" ∧
        (GENERIC_GAME_NEG.map lower).any (fun g => containsSub t g) = true then true
    else false

-- ======================================================================
-- § Search pipeline (app.py 286–393)
-- ======================================================================

/-- The filter-relevant fields of one `search_youtube` request. -/
structure SearchParams where
  includeChannels : List String
  excludeChannels : List String
  includeChannelIds : List String
  excludeChannelIds : List String
  includeWords : List String
  excludeWords : List String
  minSeconds : Option Nat
  maxSeconds : Option Nat
deriving DecidableEq, Repr

/-- One item of a `videos.list` detail response (app.py 333–345), after the
field accesses `v["id"]`, `sn.get(...)`, etc.  `viewCount` is `none` when
`statistics.viewCount` is missing or falsy; `title`/`publishedAt` are
`none` when absent (the source defaults them with `or ""` / `.get`). -/
structure RawVideo where
  id : String
  title : Option String
  channelTitle : String
  channelId : String
  viewCount : Option Nat
  publishedAt : Option String
  thumbnail : Option String
  duration : Option String
  description : String
deriving DecidableEq, Repr

/-- One record of the pipeline's output list (app.py 357–370), together
with the keys attached later by the demographic stage (`_age_score`,
read back with default 0) and by the trending pipeline (`_eng_score`,
modelled over `ℚ`). -/
structure VideoRec where
  platform : String
  title : String
  author : String
  views : Option Nat
  url : String
  videoId : String
  thumbnail : Option String
  publishedAt : Option String
  durationSec : Nat
  durationText : String
  isShorts : Bool
  description : String
  ageScore : Nat
  engScore : ℚ
deriving DecidableEq, Repr

/-- Zero-padded two-digit numeral. -/
def pad2 (n : Nat) : String :=
  if n < 10 then "0" ++ toString n else toString n

/-- `str(timedelta(seconds=s)) if s else ""` for durations under one day. -/
def durationTextOf (secs : Nat) : String :=
  if secs = 0 then ""
  else toString (secs / 3600) ++ ":" ++ pad2 ((secs % 3600) / 60) ++ ":" ++ pad2 (secs % 60)

/-- The filter chain of app.py 349–355 as one conjunction; `true` means the
record survives (none of the `continue`s fires). -/
def passes_filters (P : SearchParams) (title_l : List Char)
    (channel_title channel_id : String) (seconds : Nat) : Bool :=
  P.includeWords.all (fun w => containsSub title_l (lower w)) &&
  !(P.excludeWords.any (fun w => containsSub title_l (lower w))) &&
  (P.includeChannels.isEmpty || decide (channel_title ∈ P.includeChannels)) &&
  !(decide (channel_title ∈ P.excludeChannels)) &&
  (P.includeChannelIds.isEmpty || decide (channel_id ∈ P.includeChannelIds)) &&
  !(decide (channel_id ∈ P.excludeChannelIds)) &&
  (match P.minSeconds with
   | none => true
   | some m => decide (m ≤ seconds)) &&
  (match P.maxSeconds with
   | none => true
   | some m => decide (seconds ≤ m))

/-- The output dict built at app.py 357–370. -/
def mkRecord (v : RawVideo) (seconds : Nat) : VideoRec where
  platform := "YouTube"
  title := v.title.getD ""
  author := v.channelTitle
  views := v.viewCount
  url := "https://www.youtube.com/watch?v=" ++ v.id
  videoId := v.id
  thumbnail := v.thumbnail
  publishedAt := v.publishedAt
  durationSec := seconds
  durationText := durationTextOf seconds
  isShorts := if seconds = 0 then false else seconds ≤ 60
  description := v.description
  ageScore := 0
  engScore := 0

/-- The detail-processing loop of app.py 333–371: per item, compute the
duration, apply the filter chain, and emit the record. -/
def processVideos (P : SearchParams) (vs : List RawVideo) : List VideoRec :=
  vs.filterMap (fun v =>
    if passes_filters P (lower (v.title.getD "")) v.channelTitle v.channelId
        (parse_iso8601_duration (v.duration.getD ""))
    then some (mkRecord v (parse_iso8601_duration (v.duration.getD "")))
    else none)

/-- Sort key of `out.sort(key=lambda x: (x["views"] or -1), reverse=True)`:
`or` maps both a missing and a zero view count to the sentinel -1. -/
def viewsKey (r : VideoRec) : Int :=
  match r.views with
  | some v => if v = 0 then -1 else (v : Int)
  | none => -1

/-- Sort key of `out.sort(key=lambda x: x.get("publishedAt","") or "", ...)`,
compared as Python compares strings: lexicographically by code point. -/
def pubKey (r : VideoRec) : List Char :=
  (r.publishedAt.getD "").data

/-- "a may precede b" for the view-count-descending sort. -/
def byViewsDesc (a b : VideoRec) : Prop := viewsKey b ≤ viewsKey a

instance : DecidableRel byViewsDesc :=
  fun a b => inferInstanceAs (Decidable (viewsKey b ≤ viewsKey a))

/-- "a may precede b" for the publish-timestamp-descending sort. -/
def byDateDesc (a b : VideoRec) : Prop := pubKey b ≤ pubKey a

instance : DecidableRel byDateDesc :=
  fun a b => inferInstanceAs (Decidable (pubKey b ≤ pubKey a))

/-- The base sort of app.py 374–377.  Python's `list.sort(reverse=True)` is
a stable descending sort; `insertionSort` with the "key not below" relation
has the same stable behaviour. -/
def sortStage (byViews : Bool) (l : List VideoRec) : List VideoRec :=
  if byViews then List.insertionSort byViewsDesc l
  else List.insertionSort byDateDesc l

/-- The record with the demographic score attached
(`r["_age_score"] = age_relevance_score(...)`, app.py 383). -/
def withAge (tag : String) (r : VideoRec) : VideoRec :=
  { r with ageScore := age_relevance_score r.title tag }

/-- Sort key of app.py 385: the pair (age score, views-or-0), descending
lexicographically as Python compares tuples. -/
def ageKey (r : VideoRec) : Lex (Nat × Nat) :=
  toLex (r.ageScore, r.views.getD 0)

/-- "a may precede b" for the demographic re-sort. -/
def byAgeDesc (a b : VideoRec) : Prop := ageKey b ≤ ageKey a

instance : DecidableRel byAgeDesc :=
  fun a b => inferInstanceAs (Decidable (ageKey b ≤ ageKey a))

/-- The demographic filter block of app.py 380–385. -/
def ageStage (age_tag : String) (out : List VideoRec) : List VideoRec :=
  if age_tag = "전체" then out
  else
    let o1 := out.filter (fun r => ! age_negative_hit r.title age_tag)
    let o2 := o1.map (withAge age_tag)
    let o3 := o2.filter (fun r => decide (1 ≤ r.ageScore))
    List.insertionSort byAgeDesc o3

/-- The final dedup loop of app.py 388–392: keep a record only when its url
is non-empty (`if u`) and unseen. -/
def dedupGo (seen : List String) : List VideoRec → List VideoRec
  | [] => []
  | r :: rest =>
      if r.url ≠ "" ∧ ¬ r.url ∈ seen then r :: dedupGo (r.url :: seen) rest
      else dedupGo seen rest

/-- `seen, deduped = set(), []` entry point of the dedup loop. -/
def dedupStage (l : List VideoRec) : List VideoRec := dedupGo [] l

/-- `search_youtube` (app.py 286–393) from the network boundary inward:
`details` is the list of detail items the `videos.list` calls returned for
the collected ids (the paginated id collection of lines 300–331 is the
HTTP collaborator); `byViews` is `st.session_state.yt_sort == "조회수순"`.
The stages compose exactly as the source does: filter/build, base sort,
demographic stage, dedup. -/
def search_youtube (P : SearchParams) (byViews : Bool) (age_tag : String)
    (details : List RawVideo) : List VideoRec :=
  dedupStage (ageStage age_tag (sortStage byViews (processVideos P details)))

instance : IsTotal VideoRec byViewsDesc :=
  ⟨fun a b => le_total (viewsKey b) (viewsKey a)⟩

instance : IsTrans VideoRec byViewsDesc :=
  ⟨fun _ _ _ h1 h2 => le_trans h2 h1⟩

instance : IsTotal VideoRec byDateDesc :=
  ⟨fun a b => le_total (pubKey b) (pubKey a)⟩

instance : IsTrans VideoRec byDateDesc :=
  ⟨fun _ _ _ h1 h2 => le_trans h2 h1⟩

instance : IsTotal VideoRec byAgeDesc :=
  ⟨fun a b => le_total (ageKey b) (ageKey a)⟩

instance : IsTrans VideoRec byAgeDesc :=
  ⟨fun _ _ _ h1 h2 => le_trans h2 h1⟩

theorem sortStage_perm (byViews : Bool) (l : List VideoRec) :
    (sortStage byViews l).Perm l := by
  cases byViews
  · exact List.perm_insertionSort byDateDesc l
  · exact List.perm_insertionSort byViewsDesc l

theorem sortStage_sorted_views (l : List VideoRec) :
    List.Sorted byViewsDesc (sortStage true l) :=
  List.sorted_insertionSort byViewsDesc l

theorem sortStage_sorted_date (l : List VideoRec) :
    List.Sorted byDateDesc (sortStage false l) :=
  List.sorted_insertionSort byDateDesc l

theorem mem_ageStage {tag : String} {l : List VideoRec} {r : VideoRec}
    (h : r ∈ ageStage tag l) :
    (tag = "전체" ∧ r ∈ l) ∨
    ∃ r0 ∈ l, r = withAge tag r0 ∧ age_negative_hit r0.title tag = false ∧
      1 ≤ r.ageScore := by
  by_cases htag : tag = "전체"
  · exact Or.inl ⟨htag, by simpa [ageStage, htag] using h⟩
  · right
    simp only [ageStage, if_neg htag] at h
    have h2 := (List.perm_insertionSort byAgeDesc _).mem_iff.mp h
    simp only [List.mem_filter, List.mem_map, decide_eq_true_eq] at h2
    obtain ⟨⟨r0, hr0, hEq⟩, hscore⟩ := h2
    simp only [List.mem_filter, Bool.not_eq_true'] at hr0
    exact ⟨r0, hr0.1, hEq.symm, hr0.2, hscore⟩

theorem dedupGo_sublist : ∀ (l : List VideoRec) (seen : List String),
    (dedupGo seen l).Sublist l := by
  intro l
  induction l with
  | nil => intro seen; simp [dedupGo]
  | cons r rest ih =>
      intro seen
      rw [dedupGo]
      split
      · exact List.Sublist.cons₂ r (ih _)
      · exact List.Sublist.cons r (ih _)

theorem dedupGo_not_seen : ∀ (l : List VideoRec) (seen : List String),
    (((dedupGo seen l).map (fun r => r.url)).Nodup) ∧
    (∀ r ∈ dedupGo seen l, ¬ r.url ∈ seen ∧ r.url ≠ "") := by
  intro l
  induction l with
  | nil => intro seen; exact ⟨List.nodup_nil, by intro r hr; cases hr⟩
  | cons r rest ih =>
      intro seen
      rw [dedupGo]
      split
      · rename_i hcond
        refine ⟨?_, ?_⟩
        · simp only [List.map_cons, List.nodup_cons]
          refine ⟨?_, (ih (r.url :: seen)).1⟩
          intro hmem
          simp only [List.mem_map] at hmem
          obtain ⟨r2, hr2, hurl⟩ := hmem
          have := ((ih (r.url :: seen)).2 r2 hr2).1
          exact this (by simp [hurl])
        · intro r2 hr2
          rcases hr2 with _ | hr2'
          · exact ⟨hcond.2, hcond.1⟩
          · have h2 := (ih (r.url :: seen)).2 r2 (by assumption)
            exact ⟨fun hmem => h2.1 (by simp [hmem]), h2.2⟩
      · refine ⟨(ih seen).1, fun r2 hr2 => (ih seen).2 r2 hr2⟩

theorem dedupGo_find? (u : String) (hu : u ≠ "") :
    ∀ (l : List VideoRec) (seen : List String), ¬ u ∈ seen →
      (dedupGo seen l).find? (fun r => r.url == u) =
        l.find? (fun r => r.url == u) := by
  intro l
  induction l with
  | nil => intro seen _; rfl
  | cons r rest ih =>
      intro seen hseen
      rw [dedupGo]
      by_cases hru : r.url = u
      · have hkeep : r.url ≠ "" ∧ ¬ r.url ∈ seen := by
          rw [hru]; exact ⟨hu, hseen⟩
        rw [if_pos hkeep]
        rw [List.find?_cons_of_pos _ (by simp [hru]),
          List.find?_cons_of_pos _ (by simp [hru])]
      · have hpred : (fun r' : VideoRec => r'.url == u) r = false := by
          simp [hru]
        split
        · rw [List.find?_cons_of_neg _ (by simp [hru]),
            List.find?_cons_of_neg _ (by simp [hru])]
          exact ih (r.url :: seen) (by
            simp only [List.mem_cons, not_or]
            exact ⟨fun h => hru h.symm, hseen⟩)
        · rw [List.find?_cons_of_neg _ (by simp [hru])]
          exact ih seen hseen

/-- Claim C2: every record returned by the search pipeline satisfies all
supplied filters as a conjunction — include-words all present in the title
(case-insensitively), no exclude-word present, channel-name include/exclude
respected, channel-id include/exclude respected (stated on the detail item
the record was built from, since the output dict drops the channel id),
and the duration bounds hold when given. -/
theorem search_filters_sound (P : SearchParams) (byViews : Bool) (age_tag : String)
    (details : List RawVideo) (r : VideoRec)
    (hr : r ∈ search_youtube P byViews age_tag details) :
    (∀ w ∈ P.includeWords, containsSub (lower r.title) (lower w) = true) ∧
    (∀ w ∈ P.excludeWords, containsSub (lower r.title) (lower w) = false) ∧
    (P.includeChannels ≠ [] → r.author ∈ P.includeChannels) ∧
    ¬ r.author ∈ P.excludeChannels ∧
    (∀ m, P.minSeconds = some m → m ≤ r.durationSec) ∧
    (∀ m, P.maxSeconds = some m → r.durationSec ≤ m) ∧
    (∃ v ∈ details, r.videoId = v.id ∧
      (P.includeChannelIds ≠ [] → v.channelId ∈ P.includeChannelIds) ∧
      ¬ v.channelId ∈ P.excludeChannelIds) := by
  have hr1 : r ∈ ageStage age_tag (sortStage byViews (processVideos P details)) :=
    (dedupGo_sublist _ []).subset hr
  have hcore : ∃ r0 ∈ processVideos P details,
      r.title = r0.title ∧ r.author = r0.author ∧
      r.videoId = r0.videoId ∧ r.durationSec = r0.durationSec := by
    rcases mem_ageStage hr1 with ⟨_, hmem⟩ | ⟨r0, hr0, hEq, _, _⟩
    · exact ⟨r, (sortStage_perm byViews _).mem_iff.mp hmem, rfl, rfl, rfl, rfl⟩
    · refine ⟨r0, (sortStage_perm byViews _).mem_iff.mp hr0, ?_, ?_, ?_, ?_⟩ <;>
        simp [hEq, withAge]
  obtain ⟨r0, hr0mem, ht, ha, hvid, hd⟩ := hcore
  obtain ⟨v, hv, hsome⟩ := List.mem_filterMap.mp hr0mem
  by_cases hp : passes_filters P (lower (v.title.getD "")) v.channelTitle v.channelId
      (parse_iso8601_duration (v.duration.getD "")) = true
  case neg =>
    rw [if_neg hp] at hsome
    cases hsome
  rw [if_pos hp] at hsome
  have hrec : r0 = mkRecord v (parse_iso8601_duration (v.duration.getD "")) :=
    (Option.some.inj hsome).symm
  have htitle : r.title = v.title.getD "" := by rw [ht, hrec]; rfl
  have hauthor : r.author = v.channelTitle := by rw [ha, hrec]; rfl
  have hvideoId : r.videoId = v.id := by rw [hvid, hrec]; rfl
  have hdur : r.durationSec = parse_iso8601_duration (v.duration.getD "") := by
    rw [hd, hrec]; rfl
  simp only [passes_filters, Bool.and_eq_true, List.all_eq_true, Bool.not_eq_true',
    Bool.or_eq_true, List.isEmpty_iff, decide_eq_true_eq] at hp
  obtain ⟨⟨⟨⟨⟨⟨⟨hinc, hexc⟩, hchan⟩, hexch⟩, hid⟩, hexid⟩, hmin⟩, hmax⟩ := hp
  refine ⟨?_, ?_, ?_, ?_, ?_, ?_, v, hv, hvideoId, ?_, ?_⟩
  · intro w hw
    rw [htitle]
    exact hinc w hw
  · intro w hw
    rw [htitle]
    have := List.any_eq_false.mp hexc w hw
    simpa using this
  · intro hne
    rcases hchan with hemp | hmem
    · exact absurd hemp hne
    · rw [hauthor]; exact hmem
  · rw [hauthor]; exact of_decide_eq_false hexch
  · intro m hm
    rw [hm] at hmin
    rw [hdur]
    simpa using hmin
  · intro m hm
    rw [hm] at hmax
    rw [hdur]
    simpa using hmax
  · intro hne
    rcases hid with hemp | hmem
    · exact absurd hemp hne
    · exact hmem
  · exact of_decide_eq_false hexid

/-- Concrete detail item for the pipeline witnesses. -/
def rawCat : RawVideo where
  id := "abc123"
  title := some "My Cat Video"
  channelTitle := "ChanA"
  channelId := "UC123"
  viewCount := some 100
  publishedAt := some "2024-01-02T03:04:05Z"
  thumbnail := none
  duration := some "PT45S"
  description := "d"

/-- Request carrying one include-word, one exclude-word and both duration
bounds. -/
def catParams : SearchParams where
  includeChannels := []
  excludeChannels := []
  includeChannelIds := []
  excludeChannelIds := []
  includeWords := ["Cat"]
  excludeWords := ["dog"]
  minSeconds := some 10
  maxSeconds := some 60

/-- The record the pipeline builds for `rawCat` (duration PT45S = 45s). -/
def recCat : VideoRec := mkRecord rawCat 45

/-- Witness for C2 on a concrete run: the surviving record contains the
include-word and sits inside the requested duration bounds. -/
theorem search_filters_sound_witness :
    containsSub (lower recCat.title) (lower "Cat") = true ∧
    10 ≤ recCat.durationSec ∧ recCat.durationSec ≤ 60 := by
  have h := search_filters_sound catParams true "전체" [rawCat] recCat (by decide)
  exact ⟨h.1 "Cat" (by decide), h.2.2.2.2.1 10 rfl, h.2.2.2.2.2.1 60 rfl⟩

/-- Claim C5: the base sort stage is a permutation of its input that is
sorted by view count descending in "조회수순" mode (the `or -1` sentinel
mapping unknown view counts to the minimal key, so they close the list)
and by publish timestamp descending otherwise (a missing timestamp keyed
as the empty string, the minimal string); after any record of unknown
view count, only sentinel-keyed records may follow. -/
theorem search_sort_order (l : List VideoRec) (r : VideoRec)
    (hv : r.views = none) (hp : r.publishedAt = none) :
    (sortStage true l).Perm l ∧ List.Sorted byViewsDesc (sortStage true l) ∧
    (sortStage false l).Perm l ∧ List.Sorted byDateDesc (sortStage false l) ∧
    viewsKey r = -1 ∧ (∀ r2 : VideoRec, -1 ≤ viewsKey r2) ∧ pubKey r = [] ∧
    (∀ r2 : VideoRec, r2.publishedAt = none → pubKey r2 = [] ∧ ∀ cs, pubKey r2 ≤ cs) ∧
    List.Pairwise (fun a b => a.views = none → viewsKey b = -1) (sortStage true l) := by
  have hmin : ∀ r2 : VideoRec, -1 ≤ viewsKey r2 := by
    intro r2
    rcases h2 : r2.views with _ | v
    · simp [viewsKey, h2]
    · simp only [viewsKey, h2]
      split
      · exact le_refl _
      · omega
  refine ⟨sortStage_perm true l, sortStage_sorted_views l, sortStage_perm false l,
    sortStage_sorted_date l, by simp [viewsKey, hv], hmin, by simp [pubKey, hp],
    ?_, ?_⟩
  · intro r2 h2
    refine ⟨by simp [pubKey, h2], ?_⟩
    intro cs
    simp only [pubKey, h2, Option.getD_none]
    exact List.nil_le
  · refine (sortStage_sorted_views l).imp ?_
    intro a b hab hav
    have hab' : viewsKey b ≤ viewsKey a := hab
    have hba : viewsKey b ≤ -1 := by
      have haK : viewsKey a = -1 := by simp [viewsKey, hav]
      rw [haK] at hab'
      exact hab'
    exact le_antisymm hba (hmin b)

/-- Record with unknown view count and missing timestamp, for the C5
witness. -/
def recNoV : VideoRec where
  platform := "YouTube"
  title := "t"
  author := "a"
  views := none
  url := "u1"
  videoId := "v1"
  thumbnail := none
  publishedAt := none
  durationSec := 0
  durationText := ""
  isShorts := false
  description := ""
  ageScore := 0
  engScore := 0

/-- Record with a known view count, for the C5 witness. -/
def recV5 : VideoRec :=
  { recNoV with views := some 5, publishedAt := some "2024", url := "u2", videoId := "v2" }

/-- Witness for C5: the sentinel keys of a concrete unknown-views record,
and the sort being a permutation on a concrete list. -/
theorem search_sort_order_witness :
    viewsKey recNoV = -1 ∧ pubKey recNoV = [] ∧
    (sortStage true [recV5, recNoV]).Perm [recV5, recNoV] := by
  have h := search_sort_order [recV5, recNoV] recNoV rfl rfl
  exact ⟨h.2.2.2.2.1, h.2.2.2.2.2.2.1, h.1⟩

/-- Claim C4: the returned list never contains two records with the same
url (`url` is the dedup key), the output is an order-preserving sublist of
the pre-dedup stage, and each surviving record is the first occurrence of
its url there. -/
theorem search_dedup_unique (P : SearchParams) (byViews : Bool) (age_tag : String)
    (details : List RawVideo) (u : String) (hu : u ≠ "") :
    ((search_youtube P byViews age_tag details).map (fun r => r.url)).Nodup ∧
    (search_youtube P byViews age_tag details).Sublist
      (ageStage age_tag (sortStage byViews (processVideos P details))) ∧
    (search_youtube P byViews age_tag details).find? (fun r => r.url == u) =
      (ageStage age_tag (sortStage byViews (processVideos P details))).find?
        (fun r => r.url == u) := by
  refine ⟨(dedupGo_not_seen _ []).1, dedupGo_sublist _ [], ?_⟩
  exact dedupGo_find? u hu _ [] (by simp)

/-- Witness for C4: feeding the same detail item twice still yields
pairwise-distinct urls in the output. -/
theorem search_dedup_unique_witness :
    ((search_youtube catParams true "전체" [rawCat, rawCat]).map
      (fun r => r.url)).Nodup :=
  (search_dedup_unique catParams true "전체" [rawCat, rawCat] " x" (by decide)).1

/-- Claim C3: with a demographic tag other than "전체" the pipeline returns
at most as many records as the pre-filter stage produced; every survivor
has age score ≥ 1, does not hit the tag's negative-keyword gate, and is a
pre-filter record with the age score attached; and the output is sorted by
(age score, view count) descending. -/
theorem search_age_filter (P : SearchParams) (byViews : Bool) (tag : String)
    (details : List RawVideo) (htag : tag ≠ "전체") :
    (search_youtube P byViews tag details).length ≤
      (sortStage byViews (processVideos P details)).length ∧
    (∀ r ∈ search_youtube P byViews tag details,
      1 ≤ r.ageScore ∧ age_negative_hit r.title tag = false ∧
      ∃ r0 ∈ sortStage byViews (processVideos P details), r = withAge tag r0) ∧
    List.Sorted byAgeDesc (search_youtube P byViews tag details) := by
  have hlen : (ageStage tag (sortStage byViews (processVideos P details))).length ≤
      (sortStage byViews (processVideos P details)).length := by
    simp only [ageStage, if_neg htag]
    rw [(List.perm_insertionSort byAgeDesc _).length_eq]
    refine le_trans (List.length_filter_le _ _) ?_
    rw [List.length_map]
    exact List.length_filter_le _ _
  refine ⟨le_trans (dedupGo_sublist _ []).length_le hlen, ?_, ?_⟩
  · intro r hr
    have hr1 : r ∈ ageStage tag (sortStage byViews (processVideos P details)) :=
      (dedupGo_sublist _ []).subset hr
    rcases mem_ageStage hr1 with ⟨h, _⟩ | ⟨r0, hr0, hEq, hneg, hscore⟩
    · exact absurd h htag
    · refine ⟨hscore, ?_, r0, hr0, hEq⟩
      have hteq : r.title = r0.title := by rw [hEq]; rfl
      rw [hteq]
      exact hneg
  · have hsorted : List.Sorted byAgeDesc
        (ageStage tag (sortStage byViews (processVideos P details))) := by
      simp only [ageStage, if_neg htag]
      exact List.sorted_insertionSort byAgeDesc _
    exact List.Pairwise.sublist (dedupGo_sublist _ []) hsorted

/-- Detail item whose title carries two "30대" keywords and no negative
keyword, for the C3 witness. -/
def raw30 : RawVideo where
  id := "v30"
  title := some "직장인 재테크 방법"
  channelTitle := "C"
  channelId := "U"
  viewCount := some 10
  publishedAt := some "2024-01-01T00:00:00Z"
  thumbnail := none
  duration := some "PT2M"
  description := ""

/-- Request with no filters at all, for the C3 witness. -/
def openParams : SearchParams where
  includeChannels := []
  excludeChannels := []
  includeChannelIds := []
  excludeChannelIds := []
  includeWords := []
  excludeWords := []
  minSeconds := none
  maxSeconds := none

/-- The surviving record of the C3 witness run (age score 2). -/
def rec30 : VideoRec := withAge "30대" (mkRecord raw30 120)

/-- Witness for C3 on a concrete run with tag "30대". -/
theorem search_age_filter_witness :
    1 ≤ rec30.ageScore ∧ age_negative_hit rec30.title "30대" = false := by
  have h := (search_age_filter openParams true "30대" [raw30] (by decide)).2.1
    rec30 (by decide)
  exact ⟨h.1, h.2.1⟩

-- ======================================================================
-- § Trending pipeline (app.py 396–452)
-- ======================================================================

/-- One chart item: the detail fields plus the float engagement score the
source attaches (`_eng_score = compute_engagement_score(stt)`), abstracted
here as a rational input because the claims about this pipeline do not
depend on its value. -/
structure TrendRaw where
  video : RawVideo
  engScore : ℚ
deriving DecidableEq, Repr

/-- Result of one `yt_get` call on the chart endpoint, as the `try/except`
of app.py 405–415 distinguishes them: a JSON page (items plus presence of
`nextPageToken`), an `HTTPError` (caught: warn and break), or any other
exception (timeout, connection failure, the all-quota `RuntimeError` —
not caught, so it propagates). -/
inductive CallResult where
  | ok (items : List TrendRaw) (hasNext : Bool)
  | httpError
  | otherError
deriving DecidableEq, Repr

/-- The record dict built at app.py 424–431. -/
def mkTrendRec (t : TrendRaw) : VideoRec :=
  { mkRecord t.video (parse_iso8601_duration (t.video.duration.getD "")) with
      engScore := t.engScore }

/-- The pagination loop of app.py 402–433: `k` counts the calls made,
`acc` is `collected`.  An `HTTPError` stops the loop keeping `acc`; any
other failure propagates as `.error`. -/
def trendLoop (calls : Nat → CallResult) (total k : Nat) (acc : List TrendRaw) :
    Except Unit (List TrendRaw) :=
  if total ≤ acc.length then .ok acc
  else
    match calls k with
    | .httpError => .ok acc
    | .otherError => .error ()
    | .ok items hasNext =>
        if items = [] then .ok acc
        else
          let acc2 := acc ++ items
          if ¬ hasNext ∨ total ≤ acc2.length then .ok acc2
          else trendLoop calls total (k + 1) acc2
termination_by total - acc.length
decreasing_by
  rename_i hlt hne hcond
  simp only [not_le] at hlt
  simp only [acc2, not_or, not_le, List.length_append] at hcond ⊢
  have hilen : 0 < items.length := List.length_pos.mpr hne
  omega

/-- Sort key of the demographic re-sort of the trending pipeline
(app.py 445): `(x.get("_age_score",0), x.get("_eng_score",0))`. -/
def engAgeKey (r : VideoRec) : Lex (Nat × ℚ) :=
  toLex (r.ageScore, r.engScore)

/-- "a may precede b" for the trending demographic re-sort. -/
def byAgeEngDesc (a b : VideoRec) : Prop := engAgeKey b ≤ engAgeKey a

instance : DecidableRel byAgeEngDesc :=
  fun a b => inferInstanceAs (Decidable (engAgeKey b ≤ engAgeKey a))

instance : IsTotal VideoRec byAgeEngDesc :=
  ⟨fun a b => le_total (engAgeKey b) (engAgeKey a)⟩

instance : IsTrans VideoRec byAgeEngDesc :=
  ⟨fun _ _ _ h1 h2 => le_trans h2 h1⟩

/-- The demographic block of the trending pipeline (app.py 440–445); same
gate as the search pipeline, tie-broken by engagement instead of views. -/
def ageStageTrend (age_tag : String) (collected : List VideoRec) : List VideoRec :=
  if age_tag = "전체" then collected
  else
    let o1 := collected.filter (fun r => ! age_negative_hit r.title age_tag)
    let o2 := o1.map (withAge age_tag)
    let o3 := o2.filter (fun r => decide (1 ≤ r.ageScore))
    List.insertionSort byAgeEngDesc o3

/-- The display-set sampling of app.py 447–452.  `int(len(collected)*0.6)`
equals `3 * len / 5` exactly for every realistic pool size (the float
product of `n` with the double nearest 0.6 rounds to a value with the same
floor).  `random.Random(salt or int(time.time()))` seeds from the clock
when `salt` is 0, so the shuffle — a seed-indexed permutation oracle
standing in for the Mersenne-Twister `rnd.shuffle` — receives `timeNow`
in that case. -/
def sampleDisplay (shuffle : Nat → List VideoRec → List VideoRec)
    (salt timeNow : Nat) (collected : List VideoRec) : List VideoRec :=
  if collected.isEmpty then []
  else
    let pool := collected.take (max 40 (3 * collected.length / 5))
    let shuffled := shuffle (if salt = 0 then timeNow else salt) pool
    shuffled.take (max 60 (min 120 shuffled.length))

/-- `fetch_trending_with_engagement` (app.py 396–452).  `hasKeys` is
`bool(YOUTUBE_API_KEYS)`; `calls` is the chart endpoint; `byViews` is
`order_mode == "viewCount"`; the clamp and sorting stages compose exactly
as in the source. -/
def fetch_trending_with_engagement (hasKeys : Bool) (calls : Nat → CallResult)
    (fetch_total : Nat) (byViews : Bool) (age_tag : String)
    (shuffle : Nat → List VideoRec → List VideoRec) (salt timeNow : Nat) :
    Except Unit (List VideoRec) :=
  if ¬ hasKeys then .ok []
  else
    match trendLoop calls fetch_total 0 [] with
    | .error e => .error e
    | .ok raws =>
        .ok (sampleDisplay shuffle salt timeNow
          (ageStageTrend age_tag (sortStage byViews (raws.map mkTrendRec))))

/-- Claim C6 (amended): with a non-empty post-filter candidate list the
display set is drawn from the head subset of size `max 40 (60% of pool)`;
its length is `min (head-subset length) 120` — hence at most 120, but
below 60 whenever the head subset is shorter than 60 —; and for a nonzero
seed the construction is reproducible: the clock value is ignored. -/
theorem trending_sample_bounds (shuffle : Nat → List VideoRec → List VideoRec)
    (hperm : ∀ s l, (shuffle s l).Perm l) (salt timeNow : Nat)
    (collected : List VideoRec) (hne : collected ≠ []) :
    (∀ r ∈ sampleDisplay shuffle salt timeNow collected,
      r ∈ collected.take (max 40 (3 * collected.length / 5))) ∧
    (sampleDisplay shuffle salt timeNow collected).length =
      min (collected.take (max 40 (3 * collected.length / 5))).length 120 ∧
    (sampleDisplay shuffle salt timeNow collected).length ≤ 120 ∧
    (salt ≠ 0 → ∀ t2, sampleDisplay shuffle salt timeNow collected =
      sampleDisplay shuffle salt t2 collected) := by
  have hemp : collected.isEmpty = false := by
    simp [List.isEmpty_iff, hne]
  have hlen : (shuffle (if salt = 0 then timeNow else salt)
      (collected.take (max 40 (3 * collected.length / 5)))).length =
      (collected.take (max 40 (3 * collected.length / 5))).length :=
    (hperm _ _).length_eq
  refine ⟨?_, ?_, ?_, ?_⟩
  · intro r hr
    simp only [sampleDisplay, hemp, Bool.false_eq_true, if_false] at hr
    have h1 : r ∈ shuffle (if salt = 0 then timeNow else salt)
        (collected.take (max 40 (3 * collected.length / 5))) :=
      (List.take_subset _ _) hr
    exact (hperm _ _).mem_iff.mp h1
  · simp only [sampleDisplay, hemp, Bool.false_eq_true, if_false]
    rw [List.length_take, hlen]
    omega
  · simp only [sampleDisplay, hemp, Bool.false_eq_true, if_false]
    rw [List.length_take, hlen]
    omega
  · intro hsalt t2
    simp only [sampleDisplay, if_neg hsalt]

/-- Witness for C6: a concrete two-candidate pool with a nonzero seed and
the identity permutation as the shuffle oracle — the display set is the
whole (2-element) head subset. -/
theorem trending_sample_bounds_witness :
    (sampleDisplay (fun _ l => l) 7 0 [recV5, recNoV]).length =
      min ([recV5, recNoV].take (max 40 (3 * 2 / 5))).length 120 ∧
    (sampleDisplay (fun _ l => l) 7 0 [recV5, recNoV]).length ≤ 120 := by
  have h := trending_sample_bounds (fun _ l => l) (fun _ l => List.Perm.refl l)
    7 0 [recV5, recNoV] (by decide)
  exact ⟨h.2.1, h.2.2.1⟩

/-- Seed-sensitive permutation oracle for the C6 counterexample: even seeds
reverse the list, odd seeds keep it. -/
def revShuffle (s : Nat) (l : List VideoRec) : List VideoRec :=
  if s % 2 = 0 then l.reverse else l

/-- Counterexample for C6 as stated: (i) a 1-candidate pool yields a display
set of length 1, violating the claimed lower bound of 60 (the slice bound
`max(60, min(120, len(pool)))` never pads a short pool); (ii) with seed 0
the shuffle is seeded from the clock, so two runs over the same candidates
and the same (zero) seed can differ; the exhibited shuffle oracle is a
permutation at every seed. -/
theorem trending_sample_counterexample :
    (sampleDisplay (fun _ l => l) 1 0 [recNoV]).length = 1 ∧
    ¬ (60 ≤ (sampleDisplay (fun _ l => l) 1 0 [recNoV]).length) ∧
    sampleDisplay revShuffle 0 0 [recV5, recNoV] ≠
      sampleDisplay revShuffle 0 1 [recV5, recNoV] ∧
    (revShuffle 0 [recV5, recNoV]).Perm [recV5, recNoV] ∧
    (revShuffle 1 [recV5, recNoV]).Perm [recV5, recNoV] := by
  refine ⟨by decide, by decide, by decide, by decide, by decide⟩

/-- Claim C9 (amended): a chart-call failure surfacing as an `HTTPError`
never propagates — the loop stops and the pipeline returns what was
collected (the empty list when the first call fails); a failure surfacing
as any other exception propagates to the caller. -/
theorem trending_http_failure_graceful (hasKeys : Bool) (calls : Nat → CallResult)
    (fetch_total : Nat) (byViews : Bool) (age_tag : String)
    (shuffle : Nat → List VideoRec → List VideoRec) (salt timeNow : Nat) :
    ((∀ k, calls k ≠ CallResult.otherError) →
      ∃ l, fetch_trending_with_engagement hasKeys calls fetch_total byViews age_tag
        shuffle salt timeNow = .ok l) ∧
    (calls 0 = CallResult.httpError → 0 < fetch_total →
      fetch_trending_with_engagement hasKeys calls fetch_total byViews age_tag
        shuffle salt timeNow = .ok []) := by
  have hloop : ∀ (n k : Nat) (acc : List TrendRaw),
      (∀ j, calls j ≠ CallResult.otherError) → fetch_total - acc.length ≤ n →
      ∃ l, trendLoop calls fetch_total k acc = .ok l := by
    intro n
    induction n with
    | zero =>
        intro k acc _ hn
        unfold trendLoop
        rw [if_pos (by omega)]
        exact ⟨acc, rfl⟩
    | succ n ih =>
        intro k acc hcalls hn
        unfold trendLoop
        split
        · exact ⟨acc, rfl⟩
        · rename_i hlt
          simp only [not_le] at hlt
          rcases hc : calls k with ⟨items, hasNext⟩ | _ | _
          · simp only
            split
            · exact ⟨acc, rfl⟩
            · rename_i hne
              split
              · exact ⟨_, rfl⟩
              · rename_i hcond
                apply ih (k + 1) (acc ++ items) hcalls
                have hilen : 0 < items.length := List.length_pos.mpr hne
                simp only [List.length_append]
                omega
          · exact ⟨acc, rfl⟩
          · exact absurd hc (hcalls k)
  constructor
  · intro hcalls
    by_cases hk : hasKeys
    · obtain ⟨l, hl⟩ := hloop (fetch_total - 0) 0 [] hcalls (by simp)
      refine ⟨sampleDisplay shuffle salt timeNow
        (ageStageTrend age_tag (sortStage byViews (l.map mkTrendRec))), ?_⟩
      simp only [fetch_trending_with_engagement, hk, not_true_eq_false, if_false, hl]
    · exact ⟨[], by simp [fetch_trending_with_engagement, hk]⟩
  · intro h0 htot
    by_cases hk : hasKeys
    · have hl : trendLoop calls fetch_total 0 [] = .ok [] := by
        unfold trendLoop
        rw [if_neg (by simp; omega), h0]
      simp only [fetch_trending_with_engagement, hk, not_true_eq_false, if_false, hl]
      have hs : sortStage byViews (([] : List TrendRaw).map mkTrendRec) = [] := by
        cases byViews <;> rfl
      rw [hs]
      have ha : ageStageTrend age_tag [] = [] := by
        unfold ageStageTrend
        split <;> rfl
      rw [ha]
      rfl
    · simp [fetch_trending_with_engagement, hk]

/-- Witness for C9: every call reports an `HTTPError`; the pipeline returns
the empty list instead of propagating. -/
theorem trending_http_failure_graceful_witness :
    fetch_trending_with_engagement true (fun _ => CallResult.httpError) 200 true
      "전체" (fun _ l => l) 1 0 = .ok [] :=
  (trending_http_failure_graceful true (fun _ => CallResult.httpError) 200 true
    "전체" (fun _ l => l) 1 0).2 rfl (by omega)

/-- Counterexample for C9 as stated: a chart-call failure that is not an
`HTTPError` (a timeout, a connection error, or the all-keys-quota
`RuntimeError` raised inside `yt_get`) escapes the `except
requests.exceptions.HTTPError` handler and propagates to the caller. -/
theorem trending_failure_propagates_counterexample :
    fetch_trending_with_engagement true (fun _ => CallResult.otherError) 200 true
      "전체" (fun _ l => l) 1 0 = .error () := by
  have hl : trendLoop (fun _ => CallResult.otherError) 200 0 [] = .error () := by
    unfold trendLoop
    decide
  simp only [fetch_trending_with_engagement, not_true_eq_false, if_false, hl]

-- ======================================================================
-- § Source-trace ranking (app.py 568–617)
-- ======================================================================

/-- One web-search hit (title/link/snippet triple, app.py 558–563). -/
structure ExtResult where
  title : String
  snippet : String
  link : String
deriving DecidableEq, Repr

/-- A hit with the attached `_ext_score` (the `r2 = dict(r)` copy of
app.py 605–607).  Scores are exact here: every score is a multiple of 1/5,
so the source's `round(score, 3)` is the identity on them. -/
structure RankedResult where
  title : String
  snippet : String
  link : String
  extScore : ℚ
deriving DecidableEq, Repr

/-- `domain_weight` (app.py 568–576); decimal constants as rationals. -/
def domain_weight (url : String) : ℚ :=
  if url = "" then 0
  else
    let u := lower url
    if containsStr u "tiktok.com" then 3
    else if containsStr u "instagram.com" then 5/2
    else if containsStr u "facebook.com" || containsStr u "fb.watch" then 9/5
    else if containsStr u "x.com" || containsStr u "twitter.com" then 8/5
    else if containsStr u "naver.com" || containsStr u "daum.net" then 6/5
    else 1

/-- `round(score, 3)` over `ℚ` (half-up; the scores this file ranks are
multiples of 1/5, on which every rounding mode is the identity). -/
def roundQ3 (q : ℚ) : ℚ := ((q * 1000 + 1/2).floor : ℚ) / 1000

/-- Python `str.split()`: maximal whitespace-free runs (a right fold that
opens a fresh word at each whitespace and prepends other characters to the
current word; empty words are dropped, as `split()` drops them). -/
def splitWs (cs : List Char) : List (List Char) :=
  (cs.foldr
    (fun c acc =>
      if c.isWhitespace then [] :: acc
      else
        match acc with
        | [] => [[c]]
        | w :: ws => (c :: w) :: ws)
    []).filter (fun w => ! w.isEmpty)

/-- The title-similarity test of app.py 603: the first 20 characters of the
lowered source title, or one of its first 3 words, occurs (non-empty) in
the candidate text. -/
def titleSimHit (tlo b : List Char) : Bool :=
  ((tlo.take 20) :: (splitWs tlo).take 3).any
    (fun w => ! w.isEmpty && containsSub b w)

/-- `b = (r.get("title","") + " " + r.get("snippet","")).lower()`
(app.py 597). -/
def candText (r : ExtResult) : List Char :=
  lower (r.title ++ " " ++ r.snippet)

/-- `hit_tok` (app.py 598): distinct lowered tokens occurring in the
candidate text (`toks` is a Python set, hence the dedup). -/
def hitTok (tokens : List String) (b : List Char) : Nat :=
  ((tokens.map lower).dedup).countP (fun t => containsSub b t)

/-- `hit_key` (app.py 599): distinct lowered keyphrases occurring in the
candidate text. -/
def hitKey (extra_keys : List String) (b : List Char) : Nat :=
  ((extra_keys.map lower).dedup).countP (fun k => containsSub b k)

/-- The domain key of app.py 612:
`re.sub(r"^https?://(www\.)?","", link).split("/")[0]`.  The regex strips
`www.` only when a scheme was present, exactly as the single substitution
does. -/
def sldOf (link : String) : List Char :=
  let cs := link.data
  let noScheme :=
    if ("https://".data).isPrefixOf cs then
      let ds := cs.drop 8
      if ("www.".data).isPrefixOf ds then ds.drop 4 else ds
    else if ("http://".data).isPrefixOf cs then
      let ds := cs.drop 7
      if ("www.".data).isPrefixOf ds then ds.drop 4 else ds
    else cs
  noScheme.takeWhile (fun ch => ch ≠ '/')

/-- "a may precede b" for the score-descending sort of app.py 608. -/
def byScoreDesc (a b : RankedResult) : Prop := b.extScore ≤ a.extScore

instance : DecidableRel byScoreDesc :=
  fun a b => inferInstanceAs (Decidable (b.extScore ≤ a.extScore))

instance : IsTotal RankedResult byScoreDesc :=
  ⟨fun a b => le_total b.extScore a.extScore⟩

instance : IsTrans RankedResult byScoreDesc :=
  ⟨fun _ _ _ h1 h2 => le_trans h2 h1⟩

/-- The per-domain cap loop of app.py 609–616: `seenDoms` is the multiset
of domains kept so far (`seen_domain[d]` = its count in `seenDoms`); a
candidate is skipped once its domain was kept twice. -/
def domainCap (seenDoms : List (List Char)) : List RankedResult → List RankedResult
  | [] => []
  | r :: rest =>
      if 2 ≤ seenDoms.count (sldOf r.link) then domainCap seenDoms rest
      else r :: domainCap (sldOf r.link :: seenDoms) rest

/-- The score of app.py 604 (`hit_tok*2.0 + hit_key*1.2 + dom + title_sim`,
then `round(score, 3)`). -/
def scoreOf (tokens extra_keys : List String) (title : String) (r : ExtResult) : ℚ :=
  roundQ3 ((hitTok tokens (candText r) : ℚ) * 2 +
    (hitKey extra_keys (candText r) : ℚ) * (6/5) +
    domain_weight r.link +
    (if titleSimHit (lower title) (candText r) then 1 else 0))

/-- The loop body of app.py 596–607: drop a candidate with zero token and
zero keyphrase hits, otherwise attach its score. -/
def rankOne (tokens extra_keys : List String) (title : String) (r : ExtResult) :
    Option RankedResult :=
  if hitTok tokens (candText r) = 0 ∧ hitKey extra_keys (candText r) = 0 then none
  else some { title := r.title, snippet := r.snippet, link := r.link,
              extScore := scoreOf tokens extra_keys title r }

/-- `rank_external_results` (app.py 590–617).  `tokens` stands for the
Python set of extracted tokens (order/multiplicity irrelevant: the lowered
list is deduplicated before counting, as the set comprehension does). -/
def rank_external_results (tokens : List String) (title : String)
    (results : List ExtResult) (extra_keys : List String) : List RankedResult :=
  (domainCap [] (List.insertionSort byScoreDesc
    (results.filterMap (rankOne tokens extra_keys title)))).take 12

theorem domainCap_sublist : ∀ (l : List RankedResult) (seen : List (List Char)),
    (domainCap seen l).Sublist l := by
  intro l
  induction l with
  | nil => intro seen; simp [domainCap]
  | cons r rest ih =>
      intro seen
      rw [domainCap]
      split
      · exact List.Sublist.cons r (ih _)
      · exact List.Sublist.cons₂ r (ih _)

theorem domainCap_count (d : List Char) :
    ∀ (l : List RankedResult) (seen : List (List Char)),
      ((domainCap seen l).filter (fun r => decide (sldOf r.link = d))).length ≤
        2 - seen.count d := by
  intro l
  induction l with
  | nil => intro seen; simp [domainCap]
  | cons r rest ih =>
      intro seen
      rw [domainCap]
      split
      · rename_i hskip
        exact ih seen
      · rename_i hkeep
        simp only [not_le] at hkeep
        by_cases hd : sldOf r.link = d
        · rw [List.filter_cons_of_pos (by simp [hd])]
          have h2 := ih (sldOf r.link :: seen)
          rw [hd] at h2 hkeep ⊢
          rw [List.count_cons_self] at h2
          simp only [List.length_cons]
          omega
        · rw [List.filter_cons_of_neg (by simp [hd])]
          have h2 := ih (sldOf r.link :: seen)
          rw [List.count_cons_of_ne (fun h => hd h.symm)] at h2
          exact h2

/-- Claim C7: the source-trace ranking returns at most 12 candidates,
sorted by score descending; no returned candidate has both zero token hits
and zero keyphrase hits; and no second-level domain occurs more than twice
among the returned candidates. -/
theorem rank_external_sound (tokens : List String) (title : String)
    (results : List ExtResult) (extra_keys : List String) :
    (rank_external_results tokens title results extra_keys).length ≤ 12 ∧
    List.Sorted byScoreDesc (rank_external_results tokens title results extra_keys) ∧
    (∀ d, ((rank_external_results tokens title results extra_keys).filter
      (fun r => decide (sldOf r.link = d))).length ≤ 2) ∧
    (∀ r ∈ rank_external_results tokens title results extra_keys,
      ¬ (hitTok tokens (lower (r.title ++ " " ++ r.snippet)) = 0 ∧
         hitKey extra_keys (lower (r.title ++ " " ++ r.snippet)) = 0)) := by
  refine ⟨?_, ?_, ?_, ?_⟩
  · calc (rank_external_results tokens title results extra_keys).length
        = 12 ⊓ (domainCap [] (List.insertionSort byScoreDesc
            (results.filterMap (rankOne tokens extra_keys title)))).length :=
          List.length_take _ _
      _ ≤ 12 := min_le_left _ _
  · exact List.Pairwise.sublist
      ((List.take_sublist _ _).trans (domainCap_sublist _ []))
      (List.sorted_insertionSort byScoreDesc
        (results.filterMap (rankOne tokens extra_keys title)))
  · intro d
    have h1 := domainCap_count d (List.insertionSort byScoreDesc
      (results.filterMap (rankOne tokens extra_keys title))) []
    simp only [List.count_nil, Nat.sub_zero] at h1
    refine le_trans (List.Sublist.length_le ?_) h1
    exact List.Sublist.filter _ (List.take_sublist _ _)
  · intro r hr
    have hr1 : r ∈ List.insertionSort byScoreDesc
        (results.filterMap (rankOne tokens extra_keys title)) :=
      ((List.take_sublist _ _).trans (domainCap_sublist _ [])).subset hr
    have hr2 := (List.perm_insertionSort byScoreDesc _).mem_iff.mp hr1
    obtain ⟨r0, hr0, hsome⟩ := List.mem_filterMap.mp hr2
    rw [rankOne] at hsome
    by_cases hz : hitTok tokens (candText r0) = 0 ∧ hitKey extra_keys (candText r0) = 0
    · rw [if_pos hz] at hsome
      cases hsome
    · rw [if_neg hz] at hsome
      have hfields : r.title = r0.title ∧ r.snippet = r0.snippet := by
        have h3 := Option.some.inj hsome
        rw [← h3]
        exact ⟨rfl, rfl⟩
      rw [hfields.1, hfields.2]
      simpa [candText] using hz

/-- Concrete web hit for the C7 witness. -/
def hitTikTok : ExtResult where
  title := "clip by @abcd"
  snippet := "short video"
  link := "https://www.tiktok.com/@abcd/video/1"

/-- Witness for C7: a single-candidate run; the cap, the sort bound and the
relevance floor all hold on the concrete output. -/
theorem rank_external_sound_witness :
    (rank_external_results ["@abcd"] "clip" [hitTikTok] ["video"]).length ≤ 12 ∧
    ((rank_external_results ["@abcd"] "clip" [hitTikTok] ["video"]).filter
      (fun r => decide (sldOf r.link = "tiktok.com".data))).length ≤ 2 := by
  have h := rank_external_sound ["@abcd"] "clip" [hitTikTok] ["video"]
  exact ⟨h.1, h.2.2.1 "tiktok.com".data⟩

-- ======================================================================
-- § Engagement score (app.py 135–142)
-- ======================================================================

/-- A raw statistics field as `int(stats.get(key, 0) or 0)` sees it:
either a value whose `int()` succeeds, a falsy non-numeric value (`None`,
`""`, …) that `or 0` replaces with 0, or a truthy non-numeric value on
which `int()` raises. -/
inductive FieldVal where
  | num (n : Int)
  | emptyish
  | bad
deriving DecidableEq, Repr

/-- The `statistics` dict fields the function reads; `none` = key absent. -/
structure Stats where
  viewCount : Option FieldVal
  likeCount : Option FieldVal
  commentCount : Option FieldVal
deriving DecidableEq, Repr

/-- `int(stats.get(key, 0) or 0)`: absent and falsy values become 0,
numeric values convert, truthy non-numeric values raise. -/
def toInt : Option FieldVal → Except Unit Int
  | none => .ok 0
  | some .emptyish => .ok 0
  | some (.num n) => .ok n
  | some .bad => .error ()

/-- `(l + c) / (v ** 0.85)` after `v = max(1, ...)`, over `ℝ` (the source
computes in floating point; the exponent makes the value irrational, so
the real-number semantics is the specification of the float code). -/
noncomputable def engagementVal (v l c : Int) : ℝ :=
  ((l : ℝ) + (c : ℝ)) / ((max 1 v : Int) : ℝ) ^ (0.85 : ℝ)

/-- `compute_engagement_score` (app.py 135–142): the `try` block converts
the three fields in order; any conversion error is caught and yields 0.0. -/
noncomputable def compute_engagement_score (s : Stats) : ℝ :=
  match toInt s.viewCount, toInt s.likeCount, toInt s.commentCount with
  | .ok v, .ok l, .ok c => engagementVal v l c
  | _, _, _ => 0

/-- Claim C8: the engagement score is `(likes+comments) / max(1, views)^0.85`
whenever all three fields convert; a missing field counts as 0; any
conversion failure yields 0.0 (the function is total — it never throws);
and on the two concrete inputs of the spec it equals `15 / 100^0.85`
and `0.0` respectively. -/
theorem compute_engagement_correct :
    (∀ (s : Stats) (v l c : Int), toInt s.viewCount = .ok v →
      toInt s.likeCount = .ok l → toInt s.commentCount = .ok c →
      compute_engagement_score s =
        ((l : ℝ) + (c : ℝ)) / ((max 1 v : Int) : ℝ) ^ (0.85 : ℝ)) ∧
    (∀ s : Stats, (toInt s.viewCount = .error () ∨ toInt s.likeCount = .error () ∨
      toInt s.commentCount = .error ()) → compute_engagement_score s = 0) ∧
    toInt none = Except.ok (0 : Int) ∧
    compute_engagement_score
      ⟨some (.num 100), some (.num 10), some (.num 5)⟩ =
        15 / (100 : ℝ) ^ (0.85 : ℝ) ∧
    compute_engagement_score ⟨none, none, none⟩ = 0 := by
  refine ⟨?_, ?_, rfl, ?_, ?_⟩
  · intro s v l c hv hl hc
    simp only [compute_engagement_score, hv, hl, hc, engagementVal]
  · intro s herr
    rcases hv : toInt s.viewCount with _ | v
    · simp [compute_engagement_score, hv]
    · rcases hl : toInt s.likeCount with _ | l
      · simp [compute_engagement_score, hv, hl]
      · rcases hc : toInt s.commentCount with _ | c
        · simp [compute_engagement_score, hv, hl, hc]
        · rcases herr with h | h | h <;>
            first
              | (rw [hv] at h; cases h)
              | (rw [hl] at h; cases h)
              | (rw [hc] at h; cases h)
  · show engagementVal 100 10 5 = 15 / (100 : ℝ) ^ (0.85 : ℝ)
    unfold engagementVal
    norm_num
  · show engagementVal 0 0 0 = 0
    unfold engagementVal
    norm_num

/-- Witness for C8: a record whose `likeCount` is a truthy non-numeric
value scores 0.0 (the conversion error is swallowed). -/
theorem compute_engagement_correct_witness :
    compute_engagement_score ⟨some (.num 7), some .bad, none⟩ = 0 :=
  compute_engagement_correct.2.1 ⟨some (.num 7), some .bad, none⟩ (Or.inr (Or.inl rfl))

end App
